import Mathlib

/-!
Verification of the grainlify bounty-escrow contract against its
natural-language specification.

The escrow contract's implementation file is not part of the excerpted
sources (only its test suites are), so the state machine, analytics
aggregator and query views below are modelled from the specification's
own operational descriptions (spec §3 data model, §4.1 operations,
§4.2 analytics, §7 error taxonomy), cross-checked against the behaviour
the tests in `test.rs` and `test_analytics_monitoring.rs` exercise.
Every definition carries a doc comment naming what it models.
-/

namespace Escrow

/-- Account identifiers (Soroban `Address`), abstracted as naturals. -/
abbrev Address := Nat

/-- Modelled from the spec: the closed status sum type
`Locked | Released | Refunded` of an escrow record (spec §3). -/
inductive EscrowStatus
  | Locked
  | Released
  | Refunded
deriving DecidableEq, Repr

/-- Modelled from the spec: `EscrowRecord`, one per bounty identifier
(spec §3).  Amounts are `i128` in the contract, modelled as `Int`;
timestamps are `u64`, modelled as `Nat`. -/
structure EscrowRecord where
  bounty_id : Nat
  depositor : Address
  amount : Int
  deadline : Nat
  status : EscrowStatus
  created_at : Nat
deriving DecidableEq, Repr

/-- Modelled from the spec: the process-wide `AggregateStats` singleton
(spec §3): running totals and counts per status bucket. -/
structure AggregateStats where
  total_locked : Int
  total_released : Int
  total_refunded : Int
  count_locked : Nat
  count_released : Nat
  count_refunded : Nat
deriving DecidableEq, Repr

/-- Modelled from the spec: the append-only `RefundHistoryEntry`
`{bounty_id, depositor, amount, refunded_at}` (spec §3). -/
structure RefundHistoryEntry where
  bounty_id : Nat
  depositor : Address
  amount : Int
  refunded_at : Nat
deriving DecidableEq, Repr

/-- Modelled from the spec: the error taxonomy of §7. -/
inductive Error
  | AlreadyInitialized
  | NotInitialized
  | DuplicateBountyId
  | NotFound
  | InvalidAmount
  | InvalidStatus
  | DeadlineNotPassed
  | Unauthorized
  | GatewayFailure
deriving DecidableEq, Repr

/-- Modelled from the spec: one event per successful transition
(spec §2, Event Emitter). -/
inductive Event
  | lockEv (bounty_id : Nat) (depositor : Address) (amount : Int) (deadline : Nat)
  | releaseEv (bounty_id : Nat) (recipient : Address) (amount : Int)
  | refundEv (bounty_id : Nat) (depositor : Address) (amount : Int)
deriving DecidableEq, Repr

/-- Modelled from the spec: one invocation of the external Token Gateway
`transfer(from, to, amount)` (spec §2); the core only records the calls
it makes, it does not implement the transfer primitive. -/
structure Transfer where
  src : Address
  dst : Address
  amount : Int
deriving DecidableEq, Repr

/-- Modelled from the spec: the persistent contract state — the record
map (kept in creation order, records are never physically deleted,
spec §3 lifecycle), the aggregate counters, the maintenance-on-write
per-status id indices, the append-only refund history, the emitted
events, and the log of Token Gateway transfers performed. -/
structure EscrowState where
  records : List EscrowRecord
  stats : AggregateStats
  locked_ids : List Nat
  released_ids : List Nat
  refunded_ids : List Nat
  refund_history : List RefundHistoryEntry
  events : List Event
  transfers : List Transfer
deriving DecidableEq, Repr

/-- The contract's own custody account. -/
def contract_addr : Address := 0

/-- Point lookup of the record stored for a bounty id. -/
def find_record (st : EscrowState) (bounty_id : Nat) : Option EscrowRecord :=
  st.records.find? (fun r => r.bounty_id == bounty_id)

/-- Flip the status of the record with the given bounty id. -/
def set_status (l : List EscrowRecord) (bounty_id : Nat) (s : EscrowStatus) :
    List EscrowRecord :=
  l.map (fun r => if r.bounty_id == bounty_id then { r with status := s } else r)

/-- Modelled from the spec: `lock_funds(depositor, bounty_id, amount,
deadline)` (spec §4.1).  The capability check and the Token Gateway
sub-call are external collaborators, modelled by the `auth_ok` and
`gateway_ok` oracles; `now` is the externally supplied ledger time.
All preconditions are validated before any mutation; on success the
record, stats, indices, transfer and event commit together. -/
def lock_funds (st : EscrowState) (auth_ok gateway_ok : Bool)
    (depositor : Address) (bounty_id : Nat) (amount : Int)
    (deadline now : Nat) : Except Error EscrowState :=
  if auth_ok = false then .error .Unauthorized
  else if (find_record st bounty_id).isSome then .error .DuplicateBountyId
  else if amount ≤ 0 then .error .InvalidAmount
  else if gateway_ok = false then .error .GatewayFailure
  else
    .ok { st with
      records := st.records ++
        [{ bounty_id := bounty_id, depositor := depositor, amount := amount,
           deadline := deadline, status := .Locked, created_at := now }],
      stats := { st.stats with
        total_locked := st.stats.total_locked + amount,
        count_locked := st.stats.count_locked + 1 },
      locked_ids := st.locked_ids ++ [bounty_id],
      transfers := st.transfers ++
        [{ src := depositor, dst := contract_addr, amount := amount }],
      events := st.events ++ [.lockEv bounty_id depositor amount deadline] }

/-- Modelled from the spec: `release_funds(bounty_id, recipient)`
(spec §4.1).  Requires administrator authorization (`auth_ok` oracle);
is not deadline-gated.  On success moves the record's amount from
custody to the recipient and moves the record to the Released bucket. -/
def release_funds (st : EscrowState) (auth_ok gateway_ok : Bool)
    (bounty_id : Nat) (recipient : Address) : Except Error EscrowState :=
  if auth_ok = false then .error .Unauthorized
  else
    match find_record st bounty_id with
    | none => .error .NotFound
    | some r =>
      if r.status ≠ .Locked then .error .InvalidStatus
      else if gateway_ok = false then .error .GatewayFailure
      else
        .ok { st with
          records := set_status st.records bounty_id .Released,
          stats := { st.stats with
            total_locked := st.stats.total_locked - r.amount,
            count_locked := st.stats.count_locked - 1,
            total_released := st.stats.total_released + r.amount,
            count_released := st.stats.count_released + 1 },
          locked_ids := st.locked_ids.filter (fun x => x != bounty_id),
          released_ids := st.released_ids ++ [bounty_id],
          transfers := st.transfers ++
            [{ src := contract_addr, dst := recipient, amount := r.amount }],
          events := st.events ++ [.releaseEv bounty_id recipient r.amount] }

/-- Modelled from the spec: `refund(bounty_id)` (spec §4.1).  Callable
by anyone; fails with `DeadlineNotPassed` if the current ledger time
`now` is strictly less than the record's deadline (inclusive boundary:
eligible when `now >= deadline`, spec §4.1 tie-break policy).  On
success returns the amount to the depositor, moves the record to the
Refunded bucket and appends a refund-history entry. -/
def refund (st : EscrowState) (gateway_ok : Bool) (bounty_id : Nat)
    (now : Nat) : Except Error EscrowState :=
  match find_record st bounty_id with
  | none => .error .NotFound
  | some r =>
    if r.status ≠ .Locked then .error .InvalidStatus
    else if now < r.deadline then .error .DeadlineNotPassed
    else if gateway_ok = false then .error .GatewayFailure
    else
      .ok { st with
        records := set_status st.records bounty_id .Refunded,
        stats := { st.stats with
          total_locked := st.stats.total_locked - r.amount,
          count_locked := st.stats.count_locked - 1,
          total_refunded := st.stats.total_refunded + r.amount,
          count_refunded := st.stats.count_refunded + 1 },
        locked_ids := st.locked_ids.filter (fun x => x != bounty_id),
        refunded_ids := st.refunded_ids ++ [bounty_id],
        refund_history := st.refund_history ++
          [{ bounty_id := bounty_id, depositor := r.depositor,
             amount := r.amount, refunded_at := now }],
        transfers := st.transfers ++
          [{ src := contract_addr, dst := r.depositor, amount := r.amount }],
        events := st.events ++ [.refundEv bounty_id r.depositor r.amount] }

/-- Modelled from the spec: `get_escrow_info(bounty_id)` (spec §4.1) —
read-only; `NotFound` if absent, otherwise a snapshot of the record. -/
def get_escrow_info (st : EscrowState) (bounty_id : Nat) :
    Except Error EscrowRecord :=
  match find_record st bounty_id with
  | none => .error .NotFound
  | some r => .ok r

/-- Modelled from the spec: `get_aggregate_stats()` (spec §4.2). -/
def get_aggregate_stats (st : EscrowState) : AggregateStats :=
  st.stats

/-- Modelled from the spec: `get_escrow_count()` — the total number of
records ever created (spec §4.2); records are never deleted. -/
def get_escrow_count (st : EscrowState) : Nat :=
  st.records.length

/-- Modelled from the spec: `query_escrows_by_status(status)` (spec
§4.2) — all records currently in that status, read off the
authoritative record store. -/
def query_escrows_by_status (st : EscrowState) (s : EscrowStatus) :
    List EscrowRecord :=
  st.records.filter (fun r => r.status == s)

/-- Modelled from the spec: `get_escrow_ids_by_status(status)` (spec
§4.2) — identifier-only view, served from the maintenance-on-write
per-status index collections. -/
def get_escrow_ids_by_status (st : EscrowState) (s : EscrowStatus) :
    List Nat :=
  match s with
  | .Locked => st.locked_ids
  | .Released => st.released_ids
  | .Refunded => st.refunded_ids

/-- Modelled from the spec: `get_refund_eligibility(bounty_id)` (spec
§4.2) — a boolean probe: true iff the record exists, is `Locked`, and
`now >= deadline`; false otherwise, including for unknown ids. -/
def get_refund_eligibility (st : EscrowState) (bounty_id now : Nat) :
    Bool :=
  match find_record st bounty_id with
  | none => false
  | some r => r.status == .Locked && decide (r.deadline ≤ now)

/-- Modelled from the spec: `get_refund_history()` (spec §4.2). -/
def get_refund_history (st : EscrowState) : List RefundHistoryEntry :=
  st.refund_history

/-- One external call into the state machine, with the outcomes of the
external collaborators (capability check, Token Gateway) and the ledger
time supplied as data. -/
inductive Op
  | lockOp (auth_ok gateway_ok : Bool) (depositor : Address)
      (bounty_id : Nat) (amount : Int) (deadline now : Nat)
  | releaseOp (auth_ok gateway_ok : Bool) (bounty_id : Nat)
      (recipient : Address)
  | refundOp (gateway_ok : Bool) (bounty_id now : Nat)
deriving DecidableEq, Repr

/-- Dispatch one call. -/
def applyOp (st : EscrowState) (op : Op) : Except Error EscrowState :=
  match op with
  | .lockOp a g d b amt dl now => lock_funds st a g d b amt dl now
  | .releaseOp a g b rcp => release_funds st a g b rcp
  | .refundOp g b now => refund st g b now

/-- Modelled from the spec: each call is an atomic transaction — either
every mutation commits together or none does (spec §5); a failed call
leaves the persistent state untouched. -/
def step (st : EscrowState) (op : Op) : EscrowState :=
  match applyOp st op with
  | .ok st2 => st2
  | .error _ => st

/-- The freshly initialized state: no records, zeroed aggregates, empty
indices, history and logs. -/
def init_state : EscrowState :=
  { records := [],
    stats := { total_locked := 0, total_released := 0, total_refunded := 0,
               count_locked := 0, count_released := 0, count_refunded := 0 },
    locked_ids := [], released_ids := [], refunded_ids := [],
    refund_history := [], events := [], transfers := [] }

/-- Run a sequence of calls from the initialized state. -/
def run (ops : List Op) : EscrowState :=
  ops.foldl step init_state

/-- A state is reachable when some sequence of calls produces it. -/
def Reachable (st : EscrowState) : Prop :=
  ∃ ops, run ops = st

/-! ### Derived projections used to state the invariants -/

/-- Bounty ids of a list of records. -/
def bids (l : List EscrowRecord) : List Nat :=
  l.map EscrowRecord.bounty_id

/-- Records of a list currently in a given status. -/
def recordsWith (l : List EscrowRecord) (s : EscrowStatus) :
    List EscrowRecord :=
  l.filter (fun r => r.status == s)

/-- Sum of record amounts. -/
def amountSum (l : List EscrowRecord) : Int :=
  (l.map EscrowRecord.amount).sum

/-! ### List-level helper lemmas -/

lemma bids_append (l1 l2 : List EscrowRecord) :
    bids (l1 ++ l2) = bids l1 ++ bids l2 := by
  simp [bids]

lemma amountSum_append (l1 l2 : List EscrowRecord) :
    amountSum (l1 ++ l2) = amountSum l1 + amountSum l2 := by
  simp [amountSum]

lemma recordsWith_append (l1 l2 : List EscrowRecord) (s : EscrowStatus) :
    recordsWith (l1 ++ l2) s = recordsWith l1 s ++ recordsWith l2 s := by
  simp [recordsWith]

/-- Every record's amount splits into exactly one status bucket. -/
lemma amountSum_partition (l : List EscrowRecord) :
    amountSum l
      = amountSum (recordsWith l .Locked)
        + amountSum (recordsWith l .Released)
        + amountSum (recordsWith l .Refunded) := by
  induction l with
  | nil => simp [amountSum, recordsWith]
  | cons a t ih =>
    rcases a with ⟨b, d, amt, dl, s, c⟩
    cases s <;>
      simp only [recordsWith, List.filter_cons, amountSum, List.map_cons,
        List.sum_cons, beq_iff_eq, reduceCtorEq, if_true, if_false,
        decide_True, decide_False] <;>
      simp only [recordsWith, amountSum] at ih <;> omega

/-- `set_status` does not change the stored bounty ids. -/
lemma bids_set_status (l : List EscrowRecord) (b : Nat) (s : EscrowStatus) :
    bids (set_status l b s) = bids l := by
  induction l with
  | nil => rfl
  | cons a t ih =>
    simp only [set_status, bids, List.map_cons] at ih ⊢
    split <;> simp_all

/-- `set_status` preserves the number of records. -/
lemma length_set_status (l : List EscrowRecord) (b : Nat) (s : EscrowStatus) :
    (set_status l b s).length = l.length := by
  simp [set_status]

/-- When no record carries the id, `set_status` is the identity. -/
lemma set_status_of_not_mem (l : List EscrowRecord) (b : Nat)
    (s : EscrowStatus) (h : ∀ r ∈ l, r.bounty_id ≠ b) :
    set_status l b s = l := by
  induction l with
  | nil => rfl
  | cons a t ih =>
    have ha : a.bounty_id ≠ b := h a (List.mem_cons_self a t)
    simp only [set_status, List.map_cons]
    rw [if_neg (by simp [ha])]
    have := ih (fun r hr => h r (List.mem_cons_of_mem a hr))
    simp only [set_status] at this
    rw [this]

/-- A successful point lookup splits the store around the unique record
carrying the id (uniqueness from `Nodup` of the stored ids). -/
lemma find?_decomp (l : List EscrowRecord) (b : Nat) (r0 : EscrowRecord)
    (hnd : (bids l).Nodup)
    (hf : l.find? (fun r => r.bounty_id == b) = some r0) :
    ∃ l1 l2, l = l1 ++ r0 :: l2
      ∧ (∀ r ∈ l1, r.bounty_id ≠ b)
      ∧ (∀ r ∈ l2, r.bounty_id ≠ b)
      ∧ r0.bounty_id = b := by
  induction l with
  | nil => simp at hf
  | cons a t ih =>
    by_cases hab : a.bounty_id = b
    · rw [List.find?_cons_of_pos _ (by simp [hab])] at hf
      obtain rfl : a = r0 := by injection hf
      refine ⟨[], t, by simp, by simp, ?_, hab⟩
      intro r hr hrb
      have hmem : b ∈ bids t := by
        simp only [bids, List.mem_map]
        exact ⟨r, hr, hrb⟩
      simp only [bids, List.map_cons, List.nodup_cons, hab] at hnd
      exact hnd.1 hmem
    · rw [List.find?_cons_of_neg _ (by simp [hab])] at hf
      have hndt : (bids t).Nodup := by
        simp only [bids, List.map_cons, List.nodup_cons] at hnd
        exact hnd.2
      obtain ⟨l1, l2, heq, h1, h2, hb⟩ := ih hndt hf
      exact ⟨a :: l1, l2, by simp [heq], by
        intro r hr
        rcases List.mem_cons.mp hr with rfl | hr
        · exact hab
        · exact h1 r hr, h2, hb⟩

/-- `set_status` on a store split around the target record rewrites
exactly that record. -/
lemma set_status_decomp (l1 l2 : List EscrowRecord) (r0 : EscrowRecord)
    (b : Nat) (s : EscrowStatus)
    (h1 : ∀ r ∈ l1, r.bounty_id ≠ b) (h2 : ∀ r ∈ l2, r.bounty_id ≠ b)
    (hb : r0.bounty_id = b) :
    set_status (l1 ++ r0 :: l2) b s = l1 ++ { r0 with status := s } :: l2 := by
  simp only [set_status, List.map_append, List.map_cons]
  rw [if_pos (by simp [hb])]
  have e1 : set_status l1 b s = l1 := set_status_of_not_mem l1 b s h1
  have e2 : set_status l2 b s = l2 := set_status_of_not_mem l2 b s h2
  simp only [set_status] at e1 e2
  rw [e1, e2]

/-- Looking up a different id is unaffected by `set_status`. -/
lemma find?_set_status_ne (l : List EscrowRecord) (b b2 : Nat)
    (s : EscrowStatus) (h : b ≠ b2) :
    (set_status l b2 s).find? (fun r => r.bounty_id == b)
      = l.find? (fun r => r.bounty_id == b) := by
  induction l with
  | nil => rfl
  | cons a t ih =>
    simp only [set_status, List.map_cons]
    by_cases hab2 : a.bounty_id = b2
    · rw [if_pos (by simp [hab2])]
      rw [List.find?_cons_of_neg _ (by simp [hab2]; omega),
        List.find?_cons_of_neg _ (by simp [hab2]; omega)]
      exact ih
    · rw [if_neg (by simp [hab2])]
      by_cases hab : a.bounty_id = b
      · rw [List.find?_cons_of_pos _ (by simp [hab]),
          List.find?_cons_of_pos _ (by simp [hab])]
      · rw [List.find?_cons_of_neg _ (by simp [hab]),
          List.find?_cons_of_neg _ (by simp [hab])]
        exact ih

/-- Looking up the rewritten id finds the rewritten record. -/
lemma find?_set_status_self (l : List EscrowRecord) (b : Nat)
    (s : EscrowStatus) (r0 : EscrowRecord)
    (hf : l.find? (fun r => r.bounty_id == b) = some r0) :
    (set_status l b s).find? (fun r => r.bounty_id == b)
      = some { r0 with status := s } := by
  induction l with
  | nil => simp at hf
  | cons a t ih =>
    simp only [set_status, List.map_cons]
    by_cases hab : a.bounty_id = b
    · rw [List.find?_cons_of_pos _ (by simp [hab])] at hf
      obtain rfl : a = r0 := by injection hf
      rw [if_pos (by simp [hab])]
      rw [List.find?_cons_of_pos _ (by simp [hab])]
    · rw [List.find?_cons_of_neg _ (by simp [hab])] at hf
      rw [if_neg (by simp [hab])]
      rw [List.find?_cons_of_neg _ (by simp [hab])]
      exact ih hf

/-- Membership in the rewritten store, pointwise. -/
lemma mem_set_status (l : List EscrowRecord) (b : Nat) (s : EscrowStatus)
    (r' : EscrowRecord) :
    r' ∈ set_status l b s
      ↔ ∃ r ∈ l,
          r' = if r.bounty_id == b then { r with status := s } else r := by
  simp only [set_status, List.mem_map, eq_comm]

/-! ### The well-formedness invariant of reachable states -/

/-- The consistency invariant the spec demands of every reachable state
(spec §3 invariants, §4.2): stored bounty ids are unique, every
aggregate counter and total agrees with the authoritative record store,
and each maintenance-on-write per-status id index holds exactly the ids
of the records currently in that status. -/
structure WF (st : EscrowState) : Prop where
  nodup : (bids st.records).Nodup
  cl : st.stats.count_locked = (recordsWith st.records .Locked).length
  cr : st.stats.count_released = (recordsWith st.records .Released).length
  cf : st.stats.count_refunded = (recordsWith st.records .Refunded).length
  tl : st.stats.total_locked = amountSum (recordsWith st.records .Locked)
  tr : st.stats.total_released = amountSum (recordsWith st.records .Released)
  tf : st.stats.total_refunded = amountSum (recordsWith st.records .Refunded)
  idx : ∀ s x, x ∈ get_escrow_ids_by_status st s
          ↔ ∃ r ∈ st.records, r.status = s ∧ r.bounty_id = x

lemma wf_init : WF init_state := by
  refine ⟨?_, ?_, ?_, ?_, ?_, ?_, ?_, ?_⟩ <;>
    try simp [init_state, bids, recordsWith, amountSum]
  intro s x
  cases s <;> simp [init_state, get_escrow_ids_by_status]

lemma find_record_none (st : EscrowState) (b : Nat)
    (h : (find_record st b).isSome = false) :
    ∀ r ∈ st.records, r.bounty_id ≠ b := by
  intro r hr hrb
  have : st.records.find? (fun r => r.bounty_id == b) = none := by
    simp only [find_record] at h
    cases hc : st.records.find? (fun r => r.bounty_id == b) with
    | none => rfl
    | some _ => rw [hc] at h; simp at h
  rw [List.find?_eq_none] at this
  exact absurd (by simp [hrb]) (this r hr)

lemma wf_lock (st : EscrowState) (a g : Bool) (d : Address) (b : Nat)
    (amt : Int) (dl now : Nat) (st2 : EscrowState) (hwf : WF st)
    (h : lock_funds st a g d b amt dl now = .ok st2) : WF st2 := by
  rw [lock_funds] at h
  split at h
  · exact Except.noConfusion h
  split at h
  · exact Except.noConfusion h
  next hdup =>
  split at h
  · exact Except.noConfusion h
  split at h
  · exact Except.noConfusion h
  injection h with h
  subst h
  have hne : ∀ r ∈ st.records, r.bounty_id ≠ b :=
    find_record_none st b (by simpa using hdup)
  have hnotmem : b ∉ bids st.records := by
    intro hm
    simp only [bids, List.mem_map] at hm
    obtain ⟨r, hr, hrb⟩ := hm
    exact hne r hr hrb
  refine ⟨?_, ?_, ?_, ?_, ?_, ?_, ?_, ?_⟩
  · dsimp only
    rw [bids_append, List.nodup_append]
    refine ⟨hwf.nodup, by simp [bids], ?_⟩
    intro x hx hx2
    simp only [bids, List.map_cons, List.map_nil, List.mem_singleton] at hx2
    exact hnotmem (hx2 ▸ hx)
  · dsimp only
    simp [recordsWith_append, recordsWith, hwf.cl]
  · dsimp only
    simp [recordsWith_append, recordsWith, hwf.cr]
  · dsimp only
    simp [recordsWith_append, recordsWith, hwf.cf]
  · dsimp only
    simp [recordsWith_append, recordsWith, amountSum_append, amountSum, hwf.tl]
  · dsimp only
    simp [recordsWith_append, recordsWith, amountSum_append, amountSum, hwf.tr]
  · dsimp only
    simp [recordsWith_append, recordsWith, amountSum_append, amountSum, hwf.tf]
  · intro s x
    have hold := hwf.idx s x
    cases s
    · simp only [get_escrow_ids_by_status] at hold ⊢
      simp only [List.mem_append, List.mem_singleton]
      rw [hold]
      constructor
      · rintro (⟨r, hr, hrs, hrb⟩ | rfl)
        · exact ⟨r, Or.inl hr, hrs, hrb⟩
        · exact ⟨_, Or.inr rfl, rfl, rfl⟩
      · rintro ⟨r, hr | rfl, hrs, hrb⟩
        · exact Or.inl ⟨r, hr, hrs, hrb⟩
        · exact Or.inr hrb.symm
    · simp only [get_escrow_ids_by_status] at hold ⊢
      simp only [List.mem_append, List.mem_singleton]
      rw [hold]
      constructor
      · rintro ⟨r, hr, hrs, hrb⟩
        exact ⟨r, Or.inl hr, hrs, hrb⟩
      · rintro ⟨r, hr | rfl, hrs, hrb⟩
        · exact ⟨r, hr, hrs, hrb⟩
        · exact absurd hrs (by simp)
    · simp only [get_escrow_ids_by_status] at hold ⊢
      simp only [List.mem_append, List.mem_singleton]
      rw [hold]
      constructor
      · rintro ⟨r, hr, hrs, hrb⟩
        exact ⟨r, Or.inl hr, hrs, hrb⟩
      · rintro ⟨r, hr | rfl, hrs, hrb⟩
        · exact ⟨r, hr, hrs, hrb⟩
        · exact absurd hrs (by simp)

lemma wf_release (st : EscrowState) (a g : Bool) (b : Nat) (rcp : Address)
    (st2 : EscrowState) (hwf : WF st)
    (h : release_funds st a g b rcp = .ok st2) : WF st2 := by
  rw [release_funds] at h
  split at h
  · exact Except.noConfusion h
  split at h
  · exact Except.noConfusion h
  next r hf =>
  split at h
  · exact Except.noConfusion h
  next hst =>
  split at h
  · exact Except.noConfusion h
  injection h with h
  subst h
  have hrL : r.status = .Locked := not_not.mp hst
  have hfr : st.records.find? (fun rr => rr.bounty_id == b) = some r := by
    simpa [find_record] using hf
  obtain ⟨l1, l2, heq, h1, h2, hb⟩ := find?_decomp st.records b r hwf.nodup hfr
  have hset : set_status st.records b .Released
      = l1 ++ { r with status := .Released } :: l2 := by
    rw [heq]; exact set_status_decomp l1 l2 r b .Released h1 h2 hb
  have eL2 : recordsWith (l1 ++ { r with status := .Released } :: l2) .Locked
      = recordsWith l1 .Locked ++ recordsWith l2 .Locked := by
    simp [recordsWith_append, recordsWith, List.filter_cons]
  have eR2 : recordsWith (l1 ++ { r with status := .Released } :: l2) .Released
      = recordsWith l1 .Released
        ++ { r with status := .Released } :: recordsWith l2 .Released := by
    simp [recordsWith_append, recordsWith, List.filter_cons]
  have eF2 : recordsWith (l1 ++ { r with status := .Released } :: l2) .Refunded
      = recordsWith l1 .Refunded ++ recordsWith l2 .Refunded := by
    simp [recordsWith_append, recordsWith, List.filter_cons]
  have eL : recordsWith st.records .Locked
      = recordsWith l1 .Locked ++ r :: recordsWith l2 .Locked := by
    rw [heq]; simp [recordsWith_append, recordsWith, List.filter_cons, hrL]
  have eR : recordsWith st.records .Released
      = recordsWith l1 .Released ++ recordsWith l2 .Released := by
    rw [heq]; simp [recordsWith_append, recordsWith, List.filter_cons, hrL]
  have eF : recordsWith st.records .Refunded
      = recordsWith l1 .Refunded ++ recordsWith l2 .Refunded := by
    rw [heq]; simp [recordsWith_append, recordsWith, List.filter_cons, hrL]
  refine ⟨?_, ?_, ?_, ?_, ?_, ?_, ?_, ?_⟩
  · dsimp only
    rw [bids_set_status]
    exact hwf.nodup
  · dsimp only
    rw [hset, eL2]
    have hc := hwf.cl
    rw [eL] at hc
    simp only [List.length_append, List.length_cons] at hc ⊢
    omega
  · dsimp only
    rw [hset, eR2]
    have hc := hwf.cr
    rw [eR] at hc
    simp only [List.length_append, List.length_cons] at hc ⊢
    omega
  · dsimp only
    rw [hset, eF2]
    have hc := hwf.cf
    rw [eF] at hc
    simp only [List.length_append, List.length_cons] at hc ⊢
    omega
  · dsimp only
    rw [hset, eL2]
    have hc := hwf.tl
    rw [eL] at hc
    simp only [amountSum_append, amountSum, List.map_append, List.map_cons,
      List.sum_append, List.sum_cons] at hc ⊢
    omega
  · dsimp only
    rw [hset, eR2]
    have hc := hwf.tr
    rw [eR] at hc
    simp only [amountSum_append, amountSum, List.map_append, List.map_cons,
      List.sum_append, List.sum_cons] at hc ⊢
    omega
  · dsimp only
    rw [hset, eF2]
    have hc := hwf.tf
    rw [eF] at hc
    simp only [amountSum_append, amountSum, List.map_append, List.map_cons,
      List.sum_append, List.sum_cons] at hc ⊢
    omega
  · intro s x
    have hold := hwf.idx s x
    rw [heq] at hold
    cases s
    · simp only [get_escrow_ids_by_status] at hold ⊢
      rw [hset]
      simp only [List.mem_filter, List.mem_append, List.mem_cons,
        bne_iff_ne, ne_eq] at hold ⊢
      rw [hold]
      constructor
      · rintro ⟨⟨rr, hm, hs, hbid⟩, hxb⟩
        rcases hm with hm | rfl | hm
        · exact ⟨rr, Or.inl hm, hs, hbid⟩
        · exact absurd (hbid ▸ hb) hxb
        · exact ⟨rr, Or.inr (Or.inr hm), hs, hbid⟩
      · rintro ⟨rr, hm, hs, hbid⟩
        rcases hm with hm | rfl | hm
        · exact ⟨⟨rr, Or.inl hm, hs, hbid⟩, fun hx => h1 rr hm (hbid.trans hx)⟩
        · exact absurd hs (by simp)
        · exact ⟨⟨rr, Or.inr (Or.inr hm), hs, hbid⟩,
            fun hx => h2 rr hm (hbid.trans hx)⟩
    · simp only [get_escrow_ids_by_status] at hold ⊢
      rw [hset]
      simp only [List.mem_append, List.mem_cons, List.mem_singleton,
        List.not_mem_nil, or_false] at hold ⊢
      rw [hold]
      constructor
      · rintro (⟨rr, hm, hs, hbid⟩ | rfl)
        · rcases hm with hm | rfl | hm
          · exact ⟨rr, Or.inl hm, hs, hbid⟩
          · exact absurd (hrL.symm.trans hs) (by simp)
          · exact ⟨rr, Or.inr (Or.inr hm), hs, hbid⟩
        · exact ⟨{ r with status := .Released }, Or.inr (Or.inl rfl), rfl, hb⟩
      · rintro ⟨rr, hm, hs, hbid⟩
        rcases hm with hm | rfl | hm
        · exact Or.inl ⟨rr, Or.inl hm, hs, hbid⟩
        · exact Or.inr (hbid ▸ hb)
        · exact Or.inl ⟨rr, Or.inr (Or.inr hm), hs, hbid⟩
    · simp only [get_escrow_ids_by_status] at hold ⊢
      rw [hset]
      simp only [List.mem_append, List.mem_cons] at hold ⊢
      rw [hold]
      constructor
      · rintro ⟨rr, hm, hs, hbid⟩
        rcases hm with hm | rfl | hm
        · exact ⟨rr, Or.inl hm, hs, hbid⟩
        · exact absurd (hrL.symm.trans hs) (by simp)
        · exact ⟨rr, Or.inr (Or.inr hm), hs, hbid⟩
      · rintro ⟨rr, hm, hs, hbid⟩
        rcases hm with hm | rfl | hm
        · exact ⟨rr, Or.inl hm, hs, hbid⟩
        · exact absurd hs (by simp)
        · exact ⟨rr, Or.inr (Or.inr hm), hs, hbid⟩

lemma wf_refund (st : EscrowState) (g : Bool) (b now : Nat)
    (st2 : EscrowState) (hwf : WF st)
    (h : refund st g b now = .ok st2) : WF st2 := by
  rw [refund] at h
  split at h
  · exact Except.noConfusion h
  next r hf =>
  split at h
  · exact Except.noConfusion h
  next hst =>
  split at h
  · exact Except.noConfusion h
  split at h
  · exact Except.noConfusion h
  injection h with h
  subst h
  have hrL : r.status = .Locked := not_not.mp hst
  have hfr : st.records.find? (fun rr => rr.bounty_id == b) = some r := by
    simpa [find_record] using hf
  obtain ⟨l1, l2, heq, h1, h2, hb⟩ := find?_decomp st.records b r hwf.nodup hfr
  have hset : set_status st.records b .Refunded
      = l1 ++ { r with status := .Refunded } :: l2 := by
    rw [heq]; exact set_status_decomp l1 l2 r b .Refunded h1 h2 hb
  have eL2 : recordsWith (l1 ++ { r with status := .Refunded } :: l2) .Locked
      = recordsWith l1 .Locked ++ recordsWith l2 .Locked := by
    simp [recordsWith_append, recordsWith, List.filter_cons]
  have eR2 : recordsWith (l1 ++ { r with status := .Refunded } :: l2) .Released
      = recordsWith l1 .Released ++ recordsWith l2 .Released := by
    simp [recordsWith_append, recordsWith, List.filter_cons]
  have eF2 : recordsWith (l1 ++ { r with status := .Refunded } :: l2) .Refunded
      = recordsWith l1 .Refunded
        ++ { r with status := .Refunded } :: recordsWith l2 .Refunded := by
    simp [recordsWith_append, recordsWith, List.filter_cons]
  have eL : recordsWith st.records .Locked
      = recordsWith l1 .Locked ++ r :: recordsWith l2 .Locked := by
    rw [heq]; simp [recordsWith_append, recordsWith, List.filter_cons, hrL]
  have eR : recordsWith st.records .Released
      = recordsWith l1 .Released ++ recordsWith l2 .Released := by
    rw [heq]; simp [recordsWith_append, recordsWith, List.filter_cons, hrL]
  have eF : recordsWith st.records .Refunded
      = recordsWith l1 .Refunded ++ recordsWith l2 .Refunded := by
    rw [heq]; simp [recordsWith_append, recordsWith, List.filter_cons, hrL]
  refine ⟨?_, ?_, ?_, ?_, ?_, ?_, ?_, ?_⟩
  · dsimp only
    rw [bids_set_status]
    exact hwf.nodup
  · dsimp only
    rw [hset, eL2]
    have hc := hwf.cl
    rw [eL] at hc
    simp only [List.length_append, List.length_cons] at hc ⊢
    omega
  · dsimp only
    rw [hset, eR2]
    have hc := hwf.cr
    rw [eR] at hc
    simp only [List.length_append, List.length_cons] at hc ⊢
    omega
  · dsimp only
    rw [hset, eF2]
    have hc := hwf.cf
    rw [eF] at hc
    simp only [List.length_append, List.length_cons] at hc ⊢
    omega
  · dsimp only
    rw [hset, eL2]
    have hc := hwf.tl
    rw [eL] at hc
    simp only [amountSum_append, amountSum, List.map_append, List.map_cons,
      List.sum_append, List.sum_cons] at hc ⊢
    omega
  · dsimp only
    rw [hset, eR2]
    have hc := hwf.tr
    rw [eR] at hc
    simp only [amountSum_append, amountSum, List.map_append, List.map_cons,
      List.sum_append, List.sum_cons] at hc ⊢
    omega
  · dsimp only
    rw [hset, eF2]
    have hc := hwf.tf
    rw [eF] at hc
    simp only [amountSum_append, amountSum, List.map_append, List.map_cons,
      List.sum_append, List.sum_cons] at hc ⊢
    omega
  · intro s x
    have hold := hwf.idx s x
    rw [heq] at hold
    cases s
    · simp only [get_escrow_ids_by_status] at hold ⊢
      rw [hset]
      simp only [List.mem_filter, List.mem_append, List.mem_cons,
        bne_iff_ne, ne_eq] at hold ⊢
      rw [hold]
      constructor
      · rintro ⟨⟨rr, hm, hs, hbid⟩, hxb⟩
        rcases hm with hm | rfl | hm
        · exact ⟨rr, Or.inl hm, hs, hbid⟩
        · exact absurd (hbid ▸ hb) hxb
        · exact ⟨rr, Or.inr (Or.inr hm), hs, hbid⟩
      · rintro ⟨rr, hm, hs, hbid⟩
        rcases hm with hm | rfl | hm
        · exact ⟨⟨rr, Or.inl hm, hs, hbid⟩, fun hx => h1 rr hm (hbid.trans hx)⟩
        · exact absurd hs (by simp)
        · exact ⟨⟨rr, Or.inr (Or.inr hm), hs, hbid⟩,
            fun hx => h2 rr hm (hbid.trans hx)⟩
    · simp only [get_escrow_ids_by_status] at hold ⊢
      rw [hset]
      simp only [List.mem_append, List.mem_cons] at hold ⊢
      rw [hold]
      constructor
      · rintro ⟨rr, hm, hs, hbid⟩
        rcases hm with hm | rfl | hm
        · exact ⟨rr, Or.inl hm, hs, hbid⟩
        · exact absurd (hrL.symm.trans hs) (by simp)
        · exact ⟨rr, Or.inr (Or.inr hm), hs, hbid⟩
      · rintro ⟨rr, hm, hs, hbid⟩
        rcases hm with hm | rfl | hm
        · exact ⟨rr, Or.inl hm, hs, hbid⟩
        · exact absurd hs (by simp)
        · exact ⟨rr, Or.inr (Or.inr hm), hs, hbid⟩
    · simp only [get_escrow_ids_by_status] at hold ⊢
      rw [hset]
      simp only [List.mem_append, List.mem_cons, List.mem_singleton,
        List.not_mem_nil, or_false] at hold ⊢
      rw [hold]
      constructor
      · rintro (⟨rr, hm, hs, hbid⟩ | rfl)
        · rcases hm with hm | rfl | hm
          · exact ⟨rr, Or.inl hm, hs, hbid⟩
          · exact absurd (hrL.symm.trans hs) (by simp)
          · exact ⟨rr, Or.inr (Or.inr hm), hs, hbid⟩
        · exact ⟨{ r with status := .Refunded }, Or.inr (Or.inl rfl), rfl, hb⟩
      · rintro ⟨rr, hm, hs, hbid⟩
        rcases hm with hm | rfl | hm
        · exact Or.inl ⟨rr, Or.inl hm, hs, hbid⟩
        · exact Or.inr (hbid ▸ hb)
        · exact Or.inl ⟨rr, Or.inr (Or.inr hm), hs, hbid⟩

/-- Every step preserves the invariant. -/
lemma wf_step (st : EscrowState) (op : Op) (hwf : WF st) : WF (step st op) := by
  rw [step]
  cases hap : applyOp st op with
  | error e => exact hwf
  | ok st2 =>
    cases op with
    | lockOp a g d b amt dl now =>
      exact wf_lock st a g d b amt dl now st2 hwf hap
    | releaseOp a g b rcp =>
      exact wf_release st a g b rcp st2 hwf hap
    | refundOp g b now =>
      exact wf_refund st g b now st2 hwf hap

/-- The invariant holds along any execution. -/
lemma wf_foldl (ops : List Op) (st : EscrowState) (hwf : WF st) :
    WF (ops.foldl step st) := by
  induction ops generalizing st with
  | nil => exact hwf
  | cons op rest ih => exact ih (step st op) (wf_step st op hwf)

/-- Every reachable state satisfies the invariant. -/
lemma wf_reachable (st : EscrowState) (h : Reachable st) : WF st := by
  obtain ⟨ops, hops⟩ := h
  rw [← hops]
  exact wf_foldl ops init_state wf_init


/-! ### Inversion and equation lemmas for the three write operations -/

lemma find?_append_of_some (l1 l2 : List EscrowRecord)
    (p : EscrowRecord → Bool) (r : EscrowRecord) (h : l1.find? p = some r) :
    (l1 ++ l2).find? p = some r := by
  induction l1 with
  | nil => simp at h
  | cons a t ih =>
    by_cases hpa : p a
    · rw [List.find?_cons_of_pos _ hpa] at h
      rw [List.cons_append, List.find?_cons_of_pos _ hpa]
      exact h
    · rw [List.find?_cons_of_neg _ hpa] at h
      rw [List.cons_append, List.find?_cons_of_neg _ hpa]
      exact ih h

lemma get_escrow_info_of_find (st : EscrowState) (b : Nat)
    (r : EscrowRecord) (h : find_record st b = some r) :
    get_escrow_info st b = .ok r := by
  rw [get_escrow_info]
  split
  next heq => rw [h] at heq; exact Option.noConfusion heq
  next rr heq => rw [h] at heq; injection heq with heq; subst heq; rfl

/-- Closed form of an authorized `release_funds` on a stored record. -/
lemma release_funds_eq (st : EscrowState) (g : Bool) (b : Nat)
    (rcp : Address) (r : EscrowRecord) (hf : find_record st b = some r) :
    release_funds st true g b rcp =
      if r.status ≠ .Locked then .error .InvalidStatus
      else if g = false then .error .GatewayFailure
      else .ok { st with
        records := set_status st.records b .Released,
        stats := { st.stats with
          total_locked := st.stats.total_locked - r.amount,
          count_locked := st.stats.count_locked - 1,
          total_released := st.stats.total_released + r.amount,
          count_released := st.stats.count_released + 1 },
        locked_ids := st.locked_ids.filter (fun x => x != b),
        released_ids := st.released_ids ++ [b],
        transfers := st.transfers ++
          [{ src := contract_addr, dst := rcp, amount := r.amount }],
        events := st.events ++ [.releaseEv b rcp r.amount] } := by
  rw [release_funds, if_neg (by simp)]
  split
  next heq => rw [hf] at heq; exact Option.noConfusion heq
  next rr heq => rw [hf] at heq; injection heq with heq; subst heq; rfl

/-- Closed form of `refund` on a stored record. -/
lemma refund_eq (st : EscrowState) (g : Bool) (b now : Nat)
    (r : EscrowRecord) (hf : find_record st b = some r) :
    refund st g b now =
      if r.status ≠ .Locked then .error .InvalidStatus
      else if now < r.deadline then .error .DeadlineNotPassed
      else if g = false then .error .GatewayFailure
      else .ok { st with
        records := set_status st.records b .Refunded,
        stats := { st.stats with
          total_locked := st.stats.total_locked - r.amount,
          count_locked := st.stats.count_locked - 1,
          total_refunded := st.stats.total_refunded + r.amount,
          count_refunded := st.stats.count_refunded + 1 },
        locked_ids := st.locked_ids.filter (fun x => x != b),
        refunded_ids := st.refunded_ids ++ [b],
        refund_history := st.refund_history ++
          [{ bounty_id := b, depositor := r.depositor,
             amount := r.amount, refunded_at := now }],
        transfers := st.transfers ++
          [{ src := contract_addr, dst := r.depositor, amount := r.amount }],
        events := st.events ++ [.refundEv b r.depositor r.amount] } := by
  rw [refund]
  split
  next heq => rw [hf] at heq; exact Option.noConfusion heq
  next rr heq => rw [hf] at heq; injection heq with heq; subst heq; rfl

lemma lock_funds_ok_inv (st : EscrowState) (a g : Bool) (d : Address)
    (b : Nat) (amt : Int) (dl now : Nat) (st2 : EscrowState)
    (h : lock_funds st a g d b amt dl now = .ok st2) :
    a = true ∧ g = true ∧ find_record st b = none ∧ 0 < amt ∧
    st2.records = st.records
      ++ [{ bounty_id := b, depositor := d, amount := amt, deadline := dl,
            status := .Locked, created_at := now }] := by
  rw [lock_funds] at h
  split at h
  · exact Except.noConfusion h
  next ha =>
  split at h
  · exact Except.noConfusion h
  next hdup =>
  split at h
  · exact Except.noConfusion h
  next hamt =>
  split at h
  · exact Except.noConfusion h
  next hg =>
  injection h with h
  subst h
  refine ⟨by revert ha; cases a <;> simp, by revert hg; cases g <;> simp,
    ?_, by omega, rfl⟩
  cases hfind : find_record st b with
  | none => rfl
  | some r => rw [hfind] at hdup; simp at hdup

lemma release_funds_ok_inv (st : EscrowState) (a g : Bool) (b : Nat)
    (rcp : Address) (st2 : EscrowState)
    (h : release_funds st a g b rcp = .ok st2) :
    ∃ r, find_record st b = some r ∧ r.status = .Locked
      ∧ st2.records = set_status st.records b .Released := by
  rw [release_funds] at h
  split at h
  · exact Except.noConfusion h
  split at h
  · exact Except.noConfusion h
  next r hf =>
  split at h
  · exact Except.noConfusion h
  next hst =>
  split at h
  · exact Except.noConfusion h
  injection h with h
  subst h
  exact ⟨r, hf, not_not.mp hst, rfl⟩

lemma refund_ok_inv (st : EscrowState) (g : Bool) (b now : Nat)
    (st2 : EscrowState) (h : refund st g b now = .ok st2) :
    ∃ r, find_record st b = some r ∧ r.status = .Locked
      ∧ r.deadline ≤ now
      ∧ st2.records = set_status st.records b .Refunded := by
  rw [refund] at h
  split at h
  · exact Except.noConfusion h
  next r hf =>
  split at h
  · exact Except.noConfusion h
  next hst =>
  split at h
  · exact Except.noConfusion h
  next hdl =>
  split at h
  · exact Except.noConfusion h
  injection h with h
  subst h
  exact ⟨r, hf, not_not.mp hst, by omega, rfl⟩

/-! ### Demonstration call sequences used by the witnesses -/

/-- Full lifecycle: three locks (amounts 1000, 2000, 3000), one release,
one refund after its deadline, one record left locked — mirroring
`test_aggregate_stats_full_lifecycle_lock_release_refund`. -/
def demo_ops : List Op :=
  [Op.lockOp true true 7 50 1000 500 0,
   Op.lockOp true true 7 51 2000 500 0,
   Op.lockOp true true 7 52 3000 5000 0,
   Op.releaseOp true true 50 9,
   Op.refundOp true 51 501]

/-- One lock followed by its release, leaving a `Released` record. -/
def demo_rel : List Op :=
  [Op.lockOp true true 7 1 500 1000 0,
   Op.releaseOp true true 1 9]

/-- One lock of amount 500 with deadline 1000, still `Locked`. -/
def demo_lock : List Op :=
  [Op.lockOp true true 7 1 500 1000 0]

/-! ### The claims -/

/-- C1: conservation invariant — after every sequence of successful
lock/release/refund calls, `total_locked + total_released +
total_refunded` equals the sum of `amount` over every record ever
created (records are never deleted, so that is the sum over the whole
record store, which gains exactly one record per successful
`lock_funds`). -/
theorem C1_conservation (st : EscrowState) (h : Reachable st) :
    (get_aggregate_stats st).total_locked
      + (get_aggregate_stats st).total_released
      + (get_aggregate_stats st).total_refunded
      = amountSum st.records := by
  have hwf := wf_reachable st h
  rw [get_aggregate_stats, hwf.tl, hwf.tr, hwf.tf]
  exact (amountSum_partition st.records).symm

theorem C1_conservation_witness :
    (get_aggregate_stats (run demo_ops)).total_locked
      + (get_aggregate_stats (run demo_ops)).total_released
      + (get_aggregate_stats (run demo_ops)).total_refunded
      = amountSum (run demo_ops).records :=
  C1_conservation (run demo_ops) ⟨demo_ops, rfl⟩

/-- C2: atomicity — whenever a write operation returns an error, the
state the environment keeps is exactly the pre-call state, so no read
or query view (records, aggregates, count, per-status views, refund
eligibility, history, events, transfer log) can observe any partial
write. -/
theorem C2_atomic_rollback (st : EscrowState) (op : Op) (e : Error)
    (h : applyOp st op = .error e) :
    step st op = st
    ∧ (∀ b, get_escrow_info (step st op) b = get_escrow_info st b)
    ∧ get_aggregate_stats (step st op) = get_aggregate_stats st
    ∧ get_escrow_count (step st op) = get_escrow_count st
    ∧ (∀ s, query_escrows_by_status (step st op) s
        = query_escrows_by_status st s)
    ∧ (∀ s, get_escrow_ids_by_status (step st op) s
        = get_escrow_ids_by_status st s)
    ∧ (∀ b now, get_refund_eligibility (step st op) b now
        = get_refund_eligibility st b now)
    ∧ get_refund_history (step st op) = get_refund_history st
    ∧ (step st op).events = st.events
    ∧ (step st op).transfers = st.transfers := by
  have hs : step st op = st := by rw [step, h]
  rw [hs]
  exact ⟨rfl, fun _ => rfl, rfl, rfl, fun _ => rfl, fun _ => rfl,
    fun _ _ => rfl, rfl, rfl, rfl⟩

theorem C2_atomic_rollback_witness :
    applyOp init_state (Op.refundOp true 5 0) = .error .NotFound
    ∧ step init_state (Op.refundOp true 5 0) = init_state :=
  ⟨rfl, (C2_atomic_rollback init_state (Op.refundOp true 5 0) .NotFound rfl).1⟩

/-- C3: refund deadline gate with inclusive boundary — on a `Locked`
record, `refund` fails with `DeadlineNotPassed` exactly when
`now < deadline`, and is eligible (succeeds, given the gateway
sub-call succeeds) whenever `deadline ≤ now`, including at
`now = deadline`. -/
theorem C3_refund_deadline_boundary (st : EscrowState) (g : Bool)
    (b now : Nat) (r : EscrowRecord)
    (hf : find_record st b = some r) (hs : r.status = .Locked) :
    (now < r.deadline → refund st g b now = .error .DeadlineNotPassed)
    ∧ (r.deadline ≤ now → ∃ st2, refund st true b now = .ok st2) := by
  constructor
  · intro hlt
    rw [refund_eq st g b now r hf, if_neg (not_not_intro hs), if_pos hlt]
  · intro hge
    rw [refund_eq st true b now r hf, if_neg (not_not_intro hs),
      if_neg (by omega), if_neg (by simp)]
    exact ⟨_, rfl⟩

theorem C3_refund_deadline_boundary_witness :
    (500 < 1000 → refund (run demo_lock) true 1 500
      = .error .DeadlineNotPassed)
    ∧ (∃ st2, refund (run demo_lock) true 1 1000 = .ok st2) :=
  ⟨(C3_refund_deadline_boundary (run demo_lock) true 1 500
      ⟨1, 7, 500, 1000, .Locked, 0⟩ rfl rfl).1,
   (C3_refund_deadline_boundary (run demo_lock) true 1 1000
      ⟨1, 7, 500, 1000, .Locked, 0⟩ rfl rfl).2 (le_refl 1000)⟩

/-- C4: status transitions are monotonic and terminal — an authorized
`release_funds` or a `refund` on a record that is not `Locked` fails
with `InvalidStatus`, and across any single call a stored record either
stays as it is or moves from `Locked` to `Released` or to `Refunded`;
in particular no record ever re-enters `Locked`. -/
theorem C4_status_terminal (st : EscrowState) :
    (∀ g b rcp r, find_record st b = some r → r.status ≠ .Locked →
        release_funds st true g b rcp = .error .InvalidStatus)
    ∧ (∀ g b now r, find_record st b = some r → r.status ≠ .Locked →
        refund st g b now = .error .InvalidStatus)
    ∧ (∀ op b r r', find_record st b = some r →
        find_record (step st op) b = some r' →
        r' = r ∨ (r.status = .Locked ∧
          (r' = { r with status := .Released }
            ∨ r' = { r with status := .Refunded }))) := by
  refine ⟨?_, ?_, ?_⟩
  · intro g b rcp r hf hns
    rw [release_funds_eq st g b rcp r hf, if_pos hns]
  · intro g b now r hf hns
    rw [refund_eq st g b now r hf, if_pos hns]
  · intro op b r r' hf hf'
    rw [step] at hf'
    split at hf'
    case _ st2 hap =>
      cases op with
      | lockOp a g d b2 amt dl now =>
        obtain ⟨-, -, -, -, hrec⟩ :=
          lock_funds_ok_inv st a g d b2 amt dl now st2 hap
        rw [find_record, hrec] at hf'
        rw [find?_append_of_some _ _ _ r (by simpa [find_record] using hf)]
          at hf'
        exact Or.inl (by injection hf' with h2; exact h2.symm)
      | releaseOp a g b2 rcp =>
        obtain ⟨r2, hf2, hs2, hrec⟩ :=
          release_funds_ok_inv st a g b2 rcp st2 hap
        by_cases hbb : b = b2
        · subst hbb
          rw [hf] at hf2
          injection hf2 with hf2
          subst hf2
          rw [find_record, hrec,
            find?_set_status_self st.records b .Released r
              (by simpa [find_record] using hf)] at hf'
          injection hf' with hf'
          exact Or.inr ⟨hs2, Or.inl hf'.symm⟩
        · rw [find_record, hrec, find?_set_status_ne _ _ _ _ hbb] at hf'
          rw [show st.records.find? (fun rr => rr.bounty_id == b)
              = some r from by simpa [find_record] using hf] at hf'
          exact Or.inl (by injection hf' with h2; exact h2.symm)
      | refundOp g b2 now =>
        obtain ⟨r2, hf2, hs2, -, hrec⟩ :=
          refund_ok_inv st g b2 now st2 hap
        by_cases hbb : b = b2
        · subst hbb
          rw [hf] at hf2
          injection hf2 with hf2
          subst hf2
          rw [find_record, hrec,
            find?_set_status_self st.records b .Refunded r
              (by simpa [find_record] using hf)] at hf'
          injection hf' with hf'
          exact Or.inr ⟨hs2, Or.inr hf'.symm⟩
        · rw [find_record, hrec, find?_set_status_ne _ _ _ _ hbb] at hf'
          rw [show st.records.find? (fun rr => rr.bounty_id == b)
              = some r from by simpa [find_record] using hf] at hf'
          exact Or.inl (by injection hf' with h2; exact h2.symm)
    case _ e hap =>
      rw [hf] at hf'
      exact Or.inl (by injection hf' with h2; exact h2.symm)

theorem C4_status_terminal_witness :
    release_funds (run demo_rel) true true 1 9 = .error .InvalidStatus
    ∧ refund (run demo_rel) true 1 5000 = .error .InvalidStatus :=
  ⟨(C4_status_terminal (run demo_rel)).1 true 1 9
      ⟨1, 7, 500, 1000, .Released, 0⟩ rfl (by decide),
   (C4_status_terminal (run demo_rel)).2.1 true 1 5000
      ⟨1, 7, 500, 1000, .Released, 0⟩ rfl (by decide)⟩

/-- C5: count and total consistency — in every reachable state each
aggregate count equals the number of records currently in that status,
and each aggregate total equals the sum of amounts of the records
currently in that status. -/
theorem C5_counts_match_records (st : EscrowState) (h : Reachable st) :
    (get_aggregate_stats st).count_locked
      = (query_escrows_by_status st .Locked).length
    ∧ (get_aggregate_stats st).count_released
      = (query_escrows_by_status st .Released).length
    ∧ (get_aggregate_stats st).count_refunded
      = (query_escrows_by_status st .Refunded).length
    ∧ (get_aggregate_stats st).total_locked
      = amountSum (query_escrows_by_status st .Locked)
    ∧ (get_aggregate_stats st).total_released
      = amountSum (query_escrows_by_status st .Released)
    ∧ (get_aggregate_stats st).total_refunded
      = amountSum (query_escrows_by_status st .Refunded) := by
  have hwf := wf_reachable st h
  exact ⟨hwf.cl, hwf.cr, hwf.cf, hwf.tl, hwf.tr, hwf.tf⟩

theorem C5_counts_match_records_witness :
    (get_aggregate_stats (run demo_ops)).count_locked
      = (query_escrows_by_status (run demo_ops) .Locked).length
    ∧ (get_aggregate_stats (run demo_ops)).count_released
      = (query_escrows_by_status (run demo_ops) .Released).length
    ∧ (get_aggregate_stats (run demo_ops)).count_refunded
      = (query_escrows_by_status (run demo_ops) .Refunded).length
    ∧ (get_aggregate_stats (run demo_ops)).total_locked
      = amountSum (query_escrows_by_status (run demo_ops) .Locked)
    ∧ (get_aggregate_stats (run demo_ops)).total_released
      = amountSum (query_escrows_by_status (run demo_ops) .Released)
    ∧ (get_aggregate_stats (run demo_ops)).total_refunded
      = amountSum (query_escrows_by_status (run demo_ops) .Refunded) :=
  C5_counts_match_records (run demo_ops) ⟨demo_ops, rfl⟩

/-- C6: duplicate-key rejection — whatever the current status of the
record already stored for `bounty_id`, an authorized second
`lock_funds` with that id fails with `DuplicateBountyId` and changes
no state. -/
theorem C6_duplicate_rejected (st : EscrowState) (g : Bool) (d : Address)
    (b : Nat) (amt : Int) (dl now : Nat) (r : EscrowRecord)
    (hf : find_record st b = some r) :
    lock_funds st true g d b amt dl now = .error .DuplicateBountyId
    ∧ step st (.lockOp true g d b amt dl now) = st := by
  have hl : lock_funds st true g d b amt dl now
      = .error .DuplicateBountyId := by
    rw [lock_funds, if_neg (by simp), if_pos (by rw [hf]; rfl)]
  exact ⟨hl, by simp only [step, applyOp, hl]⟩

theorem C6_duplicate_rejected_witness :
    lock_funds (run demo_rel) true true 8 1 999 5 0
      = .error .DuplicateBountyId
    ∧ step (run demo_rel) (.lockOp true true 8 1 999 5 0) = run demo_rel :=
  C6_duplicate_rejected (run demo_rel) true 8 1 999 5 0
    ⟨1, 7, 500, 1000, .Released, 0⟩ rfl

/-- C7: the escrow count never decreases across any call (failed or
rolled-back ones included), increases by exactly one on each successful
`lock_funds`, and is unaffected by `release_funds` and `refund`. -/
theorem C7_count_monotone (st : EscrowState) (op : Op) :
    get_escrow_count st ≤ get_escrow_count (step st op)
    ∧ (∀ a g d b amt dl now st2,
        lock_funds st a g d b amt dl now = .ok st2 →
        get_escrow_count st2 = get_escrow_count st + 1)
    ∧ (∀ a g b rcp, get_escrow_count (step st (.releaseOp a g b rcp))
        = get_escrow_count st)
    ∧ (∀ g b now, get_escrow_count (step st (.refundOp g b now))
        = get_escrow_count st) := by
  have hlock : ∀ a g d b amt dl now st2,
      lock_funds st a g d b amt dl now = .ok st2 →
      get_escrow_count st2 = get_escrow_count st + 1 := by
    intro a g d b amt dl now st2 h
    obtain ⟨-, -, -, -, hrec⟩ := lock_funds_ok_inv st a g d b amt dl now st2 h
    rw [get_escrow_count, get_escrow_count, hrec, List.length_append]
    rfl
  have hrel : ∀ a g b rcp,
      get_escrow_count (step st (.releaseOp a g b rcp))
        = get_escrow_count st := by
    intro a g b rcp
    rw [step]
    split
    case _ st2 hap =>
      obtain ⟨r2, -, -, hrec⟩ := release_funds_ok_inv st a g b rcp st2 hap
      rw [get_escrow_count, get_escrow_count, hrec, length_set_status]
    case _ e hap => rfl
  have href : ∀ g b now,
      get_escrow_count (step st (.refundOp g b now))
        = get_escrow_count st := by
    intro g b now
    rw [step]
    split
    case _ st2 hap =>
      obtain ⟨r2, -, -, -, hrec⟩ := refund_ok_inv st g b now st2 hap
      rw [get_escrow_count, get_escrow_count, hrec, length_set_status]
    case _ e hap => rfl
  refine ⟨?_, hlock, hrel, href⟩
  cases op with
  | lockOp a g d b amt dl now =>
    rw [step]
    split
    case _ st2 hap =>
      rw [hlock a g d b amt dl now st2 hap]
      omega
    case _ e hap => exact le_refl _
  | releaseOp a g b rcp => rw [hrel a g b rcp]
  | refundOp g b now => rw [href g b now]

theorem C7_count_monotone_witness :
    get_escrow_count init_state
      ≤ get_escrow_count (step init_state (Op.lockOp true true 7 3 100 50 0))
    ∧ get_escrow_count (run [Op.lockOp true true 7 3 100 50 0])
      = get_escrow_count init_state + 1 :=
  ⟨(C7_count_monotone init_state (Op.lockOp true true 7 3 100 50 0)).1,
   (C7_count_monotone init_state (Op.lockOp true true 7 3 100 50 0)).2.1
     true true 7 3 100 50 0 (run [Op.lockOp true true 7 3 100 50 0]) rfl⟩

/-- C8: view agreement — in every reachable state the id-only view
`get_escrow_ids_by_status` and the id projection of the full-object
view `query_escrows_by_status` contain exactly the same bounty ids. -/
theorem C8_views_agree (st : EscrowState) (h : Reachable st)
    (s : EscrowStatus) (x : Nat) :
    x ∈ get_escrow_ids_by_status st s
      ↔ x ∈ (query_escrows_by_status st s).map EscrowRecord.bounty_id := by
  have hwf := wf_reachable st h
  rw [hwf.idx s x]
  constructor
  · rintro ⟨r, hr, hrs, hrb⟩
    simp only [List.mem_map, query_escrows_by_status, List.mem_filter]
    exact ⟨r, ⟨hr, by simp [hrs]⟩, hrb⟩
  · intro hm
    simp only [List.mem_map, query_escrows_by_status, List.mem_filter]
      at hm
    obtain ⟨r, ⟨hr, hrs⟩, hrb⟩ := hm
    exact ⟨r, hr, by simpa using hrs, hrb⟩

theorem C8_views_agree_witness :
    52 ∈ get_escrow_ids_by_status (run demo_ops) .Locked
      ↔ 52 ∈ (query_escrows_by_status (run demo_ops) .Locked).map
          EscrowRecord.bounty_id :=
  C8_views_agree (run demo_ops) ⟨demo_ops, rfl⟩ .Locked 52

/-- C9: boolean probe semantics — `get_refund_eligibility` returns
`true` exactly when a record for the id exists, its status is `Locked`
and `now ≥ deadline`; in every other case (unknown ids included) it
returns `false`, never an error. -/
theorem C9_refund_eligibility_probe (st : EscrowState) (b now : Nat) :
    get_refund_eligibility st b now = true
      ↔ ∃ r, find_record st b = some r ∧ r.status = .Locked
          ∧ r.deadline ≤ now := by
  cases hf : find_record st b with
  | none => simp [get_refund_eligibility, hf]
  | some r =>
    simp [get_refund_eligibility, hf, Bool.and_eq_true, beq_iff_eq,
      decide_eq_true_eq, and_assoc]

/-- C10: `release_funds` is not deadline-gated — on any `Locked`
record an administrator-authorized release succeeds even strictly
before the deadline, appending the Token Gateway transfer of the
record's full amount from contract custody to the recipient and
finalizing the record as `Released`. -/
theorem C10_release_before_deadline (st : EscrowState) (b : Nat)
    (rcp : Address) (now : Nat) (r : EscrowRecord)
    (hf : find_record st b = some r) (hs : r.status = .Locked)
    (hnow : now < r.deadline) :
    ∃ st2, release_funds st true true b rcp = .ok st2
      ∧ st2.transfers = st.transfers
          ++ [{ src := contract_addr, dst := rcp, amount := r.amount }]
      ∧ get_escrow_info st2 b = .ok { r with status := .Released } := by
  rw [release_funds_eq st true b rcp r hf, if_neg (not_not_intro hs),
    if_neg (by simp)]
  refine ⟨_, rfl, rfl, ?_⟩
  refine get_escrow_info_of_find _ b _ ?_
  simp only [find_record]
  exact find?_set_status_self st.records b .Released r
    (by simpa [find_record] using hf)

theorem C10_release_before_deadline_witness :
    ∃ st2, release_funds (run demo_lock) true true 1 9 = .ok st2
      ∧ st2.transfers = (run demo_lock).transfers
          ++ [{ src := contract_addr, dst := 9, amount := 500 }]
      ∧ get_escrow_info st2 1 = .ok ⟨1, 7, 500, 1000, .Released, 0⟩ :=
  C10_release_before_deadline (run demo_lock) 1 9 500
    ⟨1, 7, 500, 1000, .Locked, 0⟩ rfl rfl (by decide)

end Escrow
